import Mathlib

/-!
# Verification of the data-service core (cache / acquisition / processing / analysis)

Shallow embedding of the Python sources under `data_service/`:

* `layers/cache.py`    — key generation, file paths, three-tier get/set
* `layers/acquisition.py` — provider failover
* `layers/processing.py`  — OHLCV normalisation
* `layers/analysis.py`    — technical indicators
* `services/stock_service.py` — orchestration of the above

Machine floats are modelled by exact rationals (generically, by a linear
ordered field) extended with the IEEE special values that the code can
produce (`nan`, positive infinity).  External library calls (the MD5 hex
digest, the square root inside `pandas` rolling `std`) are abstracted as
function parameters, constrained only by the properties the library
guarantees (digest length, non-negativity).
-/

namespace DataService

/-! ## Cache layer: key generation and file paths (`layers/cache.py`) -/

/-- Python `str.replace(old, new)` specialised to a one-character pattern
(the only way `_file_path` uses it): every occurrence of the character is
replaced. -/
def pyReplaceChar (s : String) (c r : Char) : String :=
  String.mk (s.data.map (fun ch => if ch = c then r else ch))

/-- `_make_key(namespace, *parts)`.  `md5hex` abstracts
`hashlib.md5(raw.encode()).hexdigest()`, an external library call; the
rest mirrors the source: join with `":"`, and if the joined string is
longer than 200 characters replace it by `namespace + ":" + md5hex raw`. -/
def make_key (md5hex : String → String) (ns : String) (parts : List String) : String :=
  let raw := String.intercalate ":" (ns :: parts)
  if raw.length > 200 then ns ++ ":" ++ md5hex raw else raw

/-- `_file_path(key)`: `os.path.join(_CACHE_DIR, f"{safe}.json")` where
`safe` maps both `':'` and `'/'` to `'_'`. -/
def file_path (cacheDir : String) (key : String) : String :=
  cacheDir ++ "/" ++ pyReplaceChar (pyReplaceChar key ':' '_') '/' '_' ++ ".json"

/-- A stand-in for the MD5 hex digest used to evaluate the model on
concrete inputs: a fixed 32-character hex string (the digest length is the
only property the key code depends on). -/
def md5stub : String → String := fun _ => "d41d8cd98f00b204e9800998ecf8427e"

/-- A 300-character namespace, used to exhibit unbounded key length. -/
def ns300 : String := String.mk (List.replicate 300 'a')

/-! ## Cache layer: three-tier `set` (`CacheLayer.set`) -/

/-- Environment of one `set` call: which backend handles exist
(`get_redis()` / `get_mongo_db()` truthy) and whether each backend write
raises. -/
structure SetEnv where
  redisConn : Bool
  redisWriteOk : Bool
  mongoConn : Bool
  mongoWriteOk : Bool
  fileWriteOk : Bool
deriving DecidableEq

/-- Which tier writes were attempted and which succeeded during `set`. -/
structure SetTrace where
  t1Attempted : Bool
  t1Written : Bool
  t2Attempted : Bool
  t2Written : Bool
  t3Attempted : Bool
  t3Written : Bool
deriving DecidableEq

/-- The `# L3: 文件` block of `set`: unconditionally attempts the file
write (inside `try`), which succeeds iff no exception occurs. -/
def set_file (e : SetEnv) (t1a t2a : Bool) : SetTrace :=
  ⟨t1a, false, t2a, false, true, e.fileWriteOk⟩

/-- The `# L2: MongoDB` block of `set`: attempted only when a Mongo handle
exists; on success the function returns, on exception it falls through to
the file tier; with no handle it skips straight to the file tier. -/
def set_mongo (e : SetEnv) (t1a : Bool) : SetTrace :=
  if e.mongoConn then
    if e.mongoWriteOk then ⟨t1a, false, true, true, false, false⟩
    else set_file e t1a true
  else set_file e t1a false

/-- `CacheLayer.set`: try Redis first; on success return immediately; on
exception (or no handle) fall through to Mongo, then to the file tier. -/
def cache_set (e : SetEnv) : SetTrace :=
  if e.redisConn then
    if e.redisWriteOk then ⟨true, true, false, false, false, false⟩
    else set_mongo e true
  else set_mongo e false

/-! ## Cache layer: three-tier `get` (`CacheLayer.get`) -/

/-- Outcome of reading one backend: the call raised, found nothing
(including a falsy/absent payload), or found a payload. -/
inductive ReadOut (α : Type u) where
  | err
  | miss
  | hit (v : α)
deriving DecidableEq

/-- A stored cache document: the payload plus the optional `expires_at`
field (`doc.get("expires_at")`). -/
structure CacheDoc (α : Type u) (τ : Type v) where
  value : α
  expiresAt : Option τ
deriving DecidableEq

/-- Result of `get`: the returned value (`none` = absent) plus whether the
lazy deletions (`delete_one` for tier 2, `os.remove` for tier 3) were
issued. -/
structure GetTrace (α : Type u) where
  result : Option α
  t2DeleteAttempted : Bool
  t3DeleteAttempted : Bool
deriving DecidableEq

/-- The `# L3: 文件` block of `get`: if the file exists, read and parse it
(`r3 = .error` models an exception from `open`/`json.load`, caught and
treated as a miss); on a parsed document check `expires_at`, remove the
file and report absent when expired, else return the value. -/
def tier3_get [LinearOrder τ] (fileExists : Bool) (r3 : Except Unit (CacheDoc α τ))
    (now : τ) : GetTrace α :=
  match fileExists, r3 with
  | true, .ok doc =>
    match doc.expiresAt with
    | some t => if t < now then ⟨none, false, true⟩ else ⟨some doc.value, false, false⟩
    | none => ⟨some doc.value, false, false⟩
  | _, _ => ⟨none, false, false⟩

/-- The `# L2: MongoDB` block of `get`: with a Mongo handle, `find_one`
may raise (treated as a miss), miss, or hit; a hit with an elapsed
`expires_at` issues `delete_one` and falls through to the file tier
(whether or not the delete itself raised — both paths leave the `try`
block and continue); otherwise the value is returned. -/
def tier2_get [LinearOrder τ] (mongoConn : Bool) (r2 : ReadOut (CacheDoc α τ))
    (fileExists : Bool) (r3 : Except Unit (CacheDoc α τ)) (now : τ) : GetTrace α :=
  match mongoConn, r2 with
  | true, .hit doc =>
    match doc.expiresAt with
    | some t =>
      if t < now then
        let g := tier3_get fileExists r3 now
        ⟨g.result, true, g.t3DeleteAttempted⟩
      else ⟨some doc.value, false, false⟩
    | none => ⟨some doc.value, false, false⟩
  | _, _ => tier3_get fileExists r3 now

/-- `CacheLayer.get`: Redis first (`r1 = .err` models an exception from
`redis.get` or `json.loads`, caught and treated as a miss; `.miss` models
a falsy payload); on anything but a hit fall through to Mongo and then to
the file tier.  The function is total: every backend error is a value of
the environment, so no input can make it raise. -/
def cache_get [LinearOrder τ] (redisConn : Bool) (r1 : ReadOut α)
    (mongoConn : Bool) (r2 : ReadOut (CacheDoc α τ))
    (fileExists : Bool) (r3 : Except Unit (CacheDoc α τ)) (now : τ) : GetTrace α :=
  match redisConn, r1 with
  | true, .hit v => ⟨some v, false, false⟩
  | _, _ => tier2_get mongoConn r2 fileExists r3 now

/-! ## Theorems about the cache layer -/

/-- C1: `set` writes exactly the highest available tier.  If the tier-1
write succeeds the call returns with tiers 2 and 3 untouched; tier 2 is
attempted exactly when tier 1 was unavailable or failed (and a Mongo
handle exists); the tier-3 file write is attempted exactly when tier 1 did
not succeed and tier 2 was unavailable or failed; never is more than one
tier written, and the tier written is the highest one whose backend is
available and whose write succeeds. -/
theorem cache_set_writes_single_highest_tier (rc rw mc mw fw : Bool)
    (r : SetTrace) (hr : r = cache_set ⟨rc, rw, mc, mw, fw⟩) :
    (rc = true → rw = true →
      r.t1Written = true ∧ r.t2Attempted = false ∧ r.t3Attempted = false) ∧
    (r.t2Attempted = true ↔ (rc = false ∨ rw = false) ∧ mc = true) ∧
    (r.t3Attempted = true ↔ (rc = false ∨ rw = false) ∧ (mc = false ∨ mw = false)) ∧
    ((r.t1Written = true → r.t2Written = false ∧ r.t3Written = false) ∧
      (r.t2Written = true → r.t1Written = false ∧ r.t3Written = false) ∧
      (r.t3Written = true → r.t1Written = false ∧ r.t2Written = false)) ∧
    (rc = true ∧ rw = true →
      r.t1Written = true ∧ r.t2Written = false ∧ r.t3Written = false) ∧
    (¬(rc = true ∧ rw = true) → mc = true ∧ mw = true →
      r.t2Written = true ∧ r.t1Written = false ∧ r.t3Written = false) ∧
    (¬(rc = true ∧ rw = true) → ¬(mc = true ∧ mw = true) →
      r.t1Written = false ∧ r.t2Written = false ∧ r.t3Written = fw) := by
  subst hr
  cases rc <;> cases rw <;> cases mc <;> cases mw <;> cases fw <;>
    exact ⟨by decide, by decide, by decide, by decide, by decide, by decide, by decide⟩

/-- Witness for C1: with every backend up, the Redis write lands and the
other tiers are not even attempted. -/
theorem cache_set_writes_single_highest_tier_w :
    (cache_set ⟨true, true, true, true, true⟩).t1Written = true ∧
    (cache_set ⟨true, true, true, true, true⟩).t2Attempted = false ∧
    (cache_set ⟨true, true, true, true, true⟩).t3Attempted = false := by
  have h := cache_set_writes_single_highest_tier true true true true true
    (cache_set ⟨true, true, true, true, true⟩) rfl
  exact h.1 rfl rfl

/-- Tier-1 unavailability, error or miss falls through to tier 2. -/
theorem cache_get_t1_fall [LinearOrder τ] {redisConn mongoConn fileExists : Bool}
    {r1 : ReadOut α} {r2 : ReadOut (CacheDoc α τ)} {r3 : Except Unit (CacheDoc α τ)}
    {now : τ} (h : redisConn = false ∨ r1 = .err ∨ r1 = .miss) :
    cache_get redisConn r1 mongoConn r2 fileExists r3 now
      = tier2_get mongoConn r2 fileExists r3 now := by
  rcases h with rfl | rfl | rfl
  · cases r1 <;> rfl
  · cases redisConn <;> rfl
  · cases redisConn <;> rfl

/-- Tier-2 unavailability, error or miss falls through to tier 3. -/
theorem cache_get_t2_fall [LinearOrder τ] {mongoConn fileExists : Bool}
    {r2 : ReadOut (CacheDoc α τ)} {r3 : Except Unit (CacheDoc α τ)}
    {now : τ} (h : mongoConn = false ∨ r2 = .err ∨ r2 = .miss) :
    tier2_get mongoConn r2 fileExists r3 now = tier3_get fileExists r3 now := by
  rcases h with rfl | rfl | rfl
  · cases r2 <;> rfl
  · cases mongoConn <;> rfl
  · cases mongoConn <;> rfl

/-- Tier-3 absence or read error yields an absent result. -/
theorem cache_get_t3_fall [LinearOrder τ] {fileExists : Bool}
    {r3 : Except Unit (CacheDoc α τ)} {now : τ}
    (h : fileExists = false ∨ r3 = .error ()) :
    tier3_get fileExists r3 now = ⟨none, false, false⟩ := by
  rcases h with rfl | rfl
  · cases r3 <;> rfl
  · cases fileExists <;> rfl

/-- C6: `get` never raises (it is a total function of the backend
outcomes, every backend error being handled as a miss for that tier): a
valid tier-1 hit is returned; on tier-1 unavailability, error or miss the
call falls through to tier 2; an unexpired tier-2 hit is returned, an
expired one is lazily deleted and the lookup continues to tier 3; tier-2
unavailability, error or miss also falls to tier 3; an expired tier-3 hit
is lazily removed and reported absent; and when all three tiers miss (or
error) the result is absent. -/
theorem cache_get_fallthrough [LinearOrder τ] (redisConn mongoConn fileExists : Bool)
    (r1 : ReadOut α) (r2 : ReadOut (CacheDoc α τ)) (r3 : Except Unit (CacheDoc α τ))
    (now : τ) :
    (∀ v, redisConn = true → r1 = .hit v →
      cache_get redisConn r1 mongoConn r2 fileExists r3 now = ⟨some v, false, false⟩) ∧
    (redisConn = false ∨ r1 = .err ∨ r1 = .miss →
      cache_get redisConn r1 mongoConn r2 fileExists r3 now
        = tier2_get mongoConn r2 fileExists r3 now) ∧
    (∀ v t, mongoConn = true → r2 = .hit ⟨v, some t⟩ → t < now →
      tier2_get mongoConn r2 fileExists r3 now
        = ⟨(tier3_get fileExists r3 now).result, true,
            (tier3_get fileExists r3 now).t3DeleteAttempted⟩) ∧
    (∀ v t, mongoConn = true → r2 = .hit ⟨v, some t⟩ → ¬ t < now →
      tier2_get mongoConn r2 fileExists r3 now = ⟨some v, false, false⟩) ∧
    (∀ v, mongoConn = true → r2 = .hit ⟨v, none⟩ →
      tier2_get mongoConn r2 fileExists r3 now = ⟨some v, false, false⟩) ∧
    (mongoConn = false ∨ r2 = .err ∨ r2 = .miss →
      tier2_get mongoConn r2 fileExists r3 now = tier3_get fileExists r3 now) ∧
    (∀ v t, fileExists = true → r3 = .ok ⟨v, some t⟩ → t < now →
      tier3_get fileExists r3 now = ⟨none, false, true⟩) ∧
    (∀ v t, fileExists = true → r3 = .ok ⟨v, some t⟩ → ¬ t < now →
      tier3_get fileExists r3 now = ⟨some v, false, false⟩) ∧
    (∀ v, fileExists = true → r3 = .ok ⟨v, none⟩ →
      tier3_get fileExists r3 now = ⟨some v, false, false⟩) ∧
    (fileExists = false ∨ r3 = .error () →
      tier3_get fileExists r3 now = ⟨none, false, false⟩) ∧
    ((redisConn = false ∨ r1 = .err ∨ r1 = .miss) →
      (mongoConn = false ∨ r2 = .err ∨ r2 = .miss) →
      (fileExists = false ∨ r3 = .error ()) →
      cache_get redisConn r1 mongoConn r2 fileExists r3 now = ⟨none, false, false⟩) := by
  refine ⟨?_, fun h => cache_get_t1_fall h, ?_, ?_, ?_,
    fun h => cache_get_t2_fall h, ?_, ?_, ?_, fun h => cache_get_t3_fall h, ?_⟩
  · rintro v rfl rfl; rfl
  · rintro v t rfl rfl ht; simp [tier2_get, ht]
  · rintro v t rfl rfl ht; simp [tier2_get, ht]
  · rintro v rfl rfl; rfl
  · rintro v t rfl rfl ht; simp [tier3_get, ht]
  · rintro v t rfl rfl ht; simp [tier3_get, ht]
  · rintro v rfl rfl; rfl
  · rintro h1 h2 h3
    rw [cache_get_t1_fall h1, cache_get_t2_fall h2, cache_get_t3_fall h3]

/-- Witness for C6 at a concrete environment: Redis errors, the Mongo hit
is expired (so it is lazily deleted), and the file tier serves the value. -/
theorem cache_get_fallthrough_w :
    cache_get (τ := Nat) (α := Nat) true .err true (.hit ⟨7, some 3⟩) true (.ok ⟨9, none⟩) 5
      = ⟨some 9, true, false⟩ := by
  have h := cache_get_fallthrough (τ := Nat) (α := Nat) true true true
    .err (.hit ⟨7, some 3⟩) (.ok ⟨9, none⟩) 5
  have h2 := h.2.1 (Or.inr (Or.inl rfl))
  have h3 := h.2.2.1 7 3 rfl rfl (by decide)
  have h9 := h.2.2.2.2.2.2.2.2.1 9 rfl rfl
  rw [h2, h3, h9]

/-- C10: the logical-key → tier-3 file-path mapping is not injective.
`_make_key("a", "b") = "a:b"` and `_make_key("a_b") = "a_b"` are two
distinct logical keys, yet both are flattened to the file `a_b.json`, so a
tier-3 read under one key can observe a value written under the other. -/
theorem file_path_not_injective :
    make_key md5stub "a" ["b"] ≠ make_key md5stub "a_b" [] ∧
    file_path "./cache" (make_key md5stub "a" ["b"])
      = file_path "./cache" (make_key md5stub "a_b" []) := by
  decide

set_option maxRecDepth 4000 in
/-- C3 counterexample: the output key length is *not* bounded by a fixed
constant (≈ 200 + hash length = 232) regardless of input size: a
300-character namespace with no parts yields a key of length
300 + 1 + 32 = 333 > 232 (the joined string exceeds 200 characters, and
the replacement `namespace + ":" + hash` retains the whole namespace). -/
theorem make_key_length_exceeds_bound :
    (make_key md5stub ns300 []).length = 333 ∧
    ¬ (make_key md5stub ns300 []).length ≤ 232 := by
  decide

/-- C3 as amended: key generation is pure and deterministic; a joined
string of at most 200 characters is itself the key; a longer one is
replaced by `namespace + ":" + hash(joined)`; and the key length is
bounded by `max 200 (namespace.length + 33)` — a fixed constant only when
the namespace length is bounded, not for every input. -/
theorem make_key_deterministic_bounded (md5hex : String → String)
    (hmd5 : ∀ s, (md5hex s).length = 32) (ns : String) (parts : List String) :
    make_key md5hex ns parts = make_key md5hex ns parts ∧
    ((String.intercalate ":" (ns :: parts)).length ≤ 200 →
      make_key md5hex ns parts = String.intercalate ":" (ns :: parts)) ∧
    (200 < (String.intercalate ":" (ns :: parts)).length →
      make_key md5hex ns parts = ns ++ ":" ++ md5hex (String.intercalate ":" (ns :: parts))) ∧
    (make_key md5hex ns parts).length ≤ max 200 (ns.length + 33) := by
  have hcolon : (":" : String).length = 1 := rfl
  refine ⟨rfl, fun h => ?_, fun h => ?_, ?_⟩
  · simp [make_key, Nat.not_lt.2 h]
  · simp [make_key, h]
  · by_cases h : 200 < (String.intercalate ":" (ns :: parts)).length
    · simp only [make_key]
      rw [if_pos h, String.length_append, String.length_append, hmd5, hcolon]
      omega
    · simp only [make_key]
      rw [if_neg h]
      omega

/-- Witness for C3 (amended): a short key is the plain joined string and
satisfies the length bound. -/
theorem make_key_deterministic_bounded_w :
    make_key md5stub "history" ["CN", "000001"] = "history:CN:000001" ∧
    (make_key md5stub "history" ["CN", "000001"]).length
      ≤ max 200 (("history" : String).length + 33) := by
  have h := make_key_deterministic_bounded md5stub (fun s => rfl) "history" ["CN", "000001"]
  refine ⟨?_, h.2.2.2⟩
  rw [h.2.1 (by decide)]
  decide

/-! ## Acquisition layer (`layers/acquisition.py`) -/

/-- `_CHINA_PROVIDER_ORDER`: the fixed fallback order. -/
def chinaProviderOrder : List String := ["akshare", "tushare", "baostock"]

/-- The candidate list built by `get_china_stock_history`:
`[self._china_source] + [p for p in _CHINA_PROVIDER_ORDER if p != self._china_source]`. -/
def providerCandidates (chinaSource : String) : List String :=
  chinaSource :: chinaProviderOrder.filter (fun p => p ≠ chinaSource)

/-- The provider loop of `get_china_stock_history`: each candidate is
called once, in order; a call that raises (`.error`) is caught, logged and
skipped; an empty result (Python falsy) is skipped; the first non-empty
result is returned immediately; when no candidate produced data the loop
falls through to `return []`.  `fetch` abstracts
`_fetch_china_history(provider, symbol, start_date, end_date)`. -/
def fetchLoop (fetch : String → Except Unit (List ρ)) : List String → List ρ
  | [] => []
  | p :: ps =>
    match fetch p with
    | .error _ => fetchLoop fetch ps
    | .ok r => if r.isEmpty then fetchLoop fetch ps else r

/-- `AcquisitionLayer.get_china_stock_history`, as a function of the
per-provider outcomes.  Total: no provider outcome makes it raise. -/
def get_china_stock_history (fetch : String → Except Unit (List ρ))
    (chinaSource : String) : List ρ :=
  fetchLoop fetch (providerCandidates chinaSource)

/-- A provider call that raised or returned an empty (falsy) result. -/
def failedOrEmpty (fetch : String → Except Unit (List ρ)) (q : String) : Prop :=
  fetch q = .error () ∨ fetch q = .ok []

/-- The loop returns the first non-empty, non-raising result. -/
theorem fetchLoop_first_hit (fetch : String → Except Unit (List ρ)) :
    ∀ (pre : List String) (p : String) (post : List String) (r : List ρ),
    (∀ q ∈ pre, failedOrEmpty fetch q) → fetch p = .ok r → r ≠ [] →
    fetchLoop fetch (pre ++ p :: post) = r := by
  intro pre
  induction pre with
  | nil =>
    intro p post r _ hp hr
    simp [fetchLoop, hp, List.isEmpty_iff, hr]
  | cons q qs ih =>
    intro p post r hq hp hr
    have hqhd := hq q (by simp)
    rcases hqhd with h | h <;>
      simp only [List.cons_append, fetchLoop, h] <;>
      exact ih p post r (fun x hx => hq x (by simp [hx])) hp hr

/-- When every candidate raises or returns empty, the loop returns `[]`. -/
theorem fetchLoop_all_failed (fetch : String → Except Unit (List ρ)) :
    ∀ l : List String, (∀ q ∈ l, failedOrEmpty fetch q) → fetchLoop fetch l = [] := by
  intro l
  induction l with
  | nil => intro _; rfl
  | cons q qs ih =>
    intro hq
    have hrest := ih fun x hx => hq x (by simp [hx])
    rcases hq q (by simp) with h | h <;> simp [fetchLoop, h, hrest]

/-- C4: the candidate order is the configured default provider first,
then the remaining known providers in the fixed fallback order with
duplicates removed; candidates are called in that order; the first call
that raises no error and returns a non-empty result is returned
immediately, candidates before it that raised or returned empty being
skipped and not retried; if every candidate raises or returns empty the
operation returns the empty list (and, being a total function of the
provider outcomes, never raises). -/
theorem acquisition_failover (fetch : String → Except Unit (List ρ)) (src : String) :
    (providerCandidates src).head? = some src ∧
    (providerCandidates src).Nodup ∧
    (∀ p ∈ chinaProviderOrder, p ∈ providerCandidates src) ∧
    (∀ pre p post r, providerCandidates src = pre ++ p :: post →
      (∀ q ∈ pre, failedOrEmpty fetch q) → fetch p = .ok r → r ≠ [] →
      get_china_stock_history fetch src = r) ∧
    ((∀ q ∈ providerCandidates src, failedOrEmpty fetch q) →
      get_china_stock_history fetch src = []) := by
  refine ⟨rfl, ?_, ?_, ?_, ?_⟩
  · refine List.nodup_cons.2 ⟨?_, ?_⟩
    · simp [List.mem_filter]
    · exact List.Nodup.filter _ (by decide)
  · intro p hp
    by_cases h : p = src
    · simp [providerCandidates, h]
    · simp [providerCandidates, List.mem_filter, hp, h]
  · intro pre p post r hsplit hpre hp hr
    unfold get_china_stock_history
    rw [hsplit]
    exact fetchLoop_first_hit fetch pre p post r hpre hp hr
  · intro hall
    exact fetchLoop_all_failed fetch _ hall

/-- Concrete provider environment for the C4 witness: the default source
raises, the second candidate returns data. -/
def fetchW : String → Except Unit (List Nat) := fun p =>
  if p = "akshare" then .error () else if p = "tushare" then .ok [5] else .ok []

/-- Witness for C4: with `akshare` (the default) raising and `tushare`
returning one record, the failover returns `tushare`'s data. -/
theorem acquisition_failover_w : get_china_stock_history fetchW "akshare" = [5] := by
  have h := (acquisition_failover fetchW "akshare").2.2.2.1
  exact h ["akshare"] "tushare" ["baostock"] [5] (by decide)
    (by intro q hq; left; fin_cases hq; rfl) rfl (by decide)

/-! ## Machine-float values

The numeric columns are IEEE doubles in the source.  They are modelled
exactly by a linear ordered field extended with the two special values the
modelled code paths can produce: `nan` (missing / undefined) and positive
infinity (from `float("inf")` and from division by zero).  Negative
infinity never arises on the modelled paths (the only infinities come from
`loss.replace(0, inf)` where `loss ≥ 0`, and from `x / 0`); operations
that would produce it conservatively yield `nan` and are marked below. -/

inductive FVal (α : Type u) where
  | nan
  | inf
  | num (x : α)
deriving DecidableEq

namespace FVal

variable {α : Type u} [LinearOrderedField α]

/-- Addition: `nan` propagates, `inf + x = inf`. -/
def add : FVal α → FVal α → FVal α
  | nan, _ => nan
  | _, nan => nan
  | inf, _ => inf
  | _, inf => inf
  | num a, num b => num (a + b)

/-- Subtraction: `num - inf` would be `-inf`, unreachable on the modelled
paths, conservatively `nan`. -/
def sub : FVal α → FVal α → FVal α
  | nan, _ => nan
  | _, nan => nan
  | inf, inf => nan
  | inf, num _ => inf
  | num _, inf => nan
  | num a, num b => num (a - b)

/-- Multiplication: `inf * 0 = nan`; the sign of an infinite product is
ignored (negative factors never meet `inf` on the modelled paths). -/
def mul : FVal α → FVal α → FVal α
  | nan, _ => nan
  | _, nan => nan
  | inf, inf => inf
  | inf, num b => if b = 0 then nan else inf
  | num a, inf => if a = 0 then nan else inf
  | num a, num b => num (a * b)

/-- Division: `x / inf = 0`, `x / 0 = inf` for `x ≠ 0` (sign ignored — the
numerator is non-negative wherever this arises), `0 / 0 = nan`. -/
def div : FVal α → FVal α → FVal α
  | nan, _ => nan
  | _, nan => nan
  | inf, inf => nan
  | inf, num _ => inf
  | num _, inf => num 0
  | num a, num b => if b = 0 then (if a = 0 then nan else inf) else num (a / b)

/-- Negation (`-inf` unrepresentable, unreachable: conservatively `nan`). -/
def neg : FVal α → FVal α
  | nan => nan
  | inf => nan
  | num a => num (-a)

/-- `Series.clip(lower=0)`. -/
def clipLower0 : FVal α → FVal α
  | nan => nan
  | inf => inf
  | num a => num (max a 0)

/-- `Series.clip(upper=0)`. -/
def clipUpper0 : FVal α → FVal α
  | nan => nan
  | inf => num 0
  | num a => num (min a 0)

/-- Absolute value. -/
def fabs : FVal α → FVal α
  | nan => nan
  | inf => inf
  | num a => num |a|

/-- `Series.replace(0, r)`: exact zeros are replaced by `r`. -/
def replace0 (r : FVal α) : FVal α → FVal α
  | num a => if a = 0 then r else num a
  | v => v

/-- Python `round(x)` on floats: round half to even (banker's rounding). -/
def pyRound [FloorRing α] (x : α) : ℤ :=
  if x - ⌊x⌋ < 1 / 2 then ⌊x⌋
  else if 1 / 2 < x - ⌊x⌋ then ⌊x⌋ + 1
  else if ⌊x⌋ % 2 = 0 then ⌊x⌋ else ⌊x⌋ + 1

/-- `Series.round(4)`: round to four decimal places (`nan` and `inf` pass
through unchanged, as in `pandas`). -/
def round4 [FloorRing α] : FVal α → FVal α
  | nan => nan
  | inf => inf
  | num a => num ((pyRound (a * 10000) : α) / 10000)

/-- Is this the missing value? -/
def isNan : FVal α → Bool
  | nan => true
  | _ => false

/-- The finite observations of a window: `pandas` rolling aggregations
skip `nan`.  (`inf` never reaches a rolling aggregation on the modelled
paths, so it is treated as missing here as well.) -/
def obs (w : List (FVal α)) : List α :=
  w.filterMap (fun v => match v with | num x => some x | _ => none)

end FVal

/-! ## Column (Series) operations shared by processing and analysis -/

open FVal in
/-- `Series.diff()`: first element `NaN`, then consecutive differences. -/
def diffCol [LinearOrderedField α] (l : List (FVal α)) : List (FVal α) :=
  match l with
  | [] => []
  | x :: xs => nan :: List.zipWith sub xs (x :: xs)

open FVal in
/-- `Series.shift(1)`: first element `NaN`, remaining values shifted. -/
def shift1 (l : List (FVal α)) : List (FVal α) :=
  match l with
  | [] => []
  | _ :: _ => nan :: l.dropLast

/-- The window of up to `p` elements ending at index `i`. -/
def windowAt (p : Nat) (l : List (FVal α)) (i : Nat) : List (FVal α) :=
  (l.take (i + 1)).drop (i + 1 - p)

/-- `Series.rolling(window=p, min_periods=1).agg(f)`: `f` applied to each
trailing window. -/
def rollingApply (p : Nat) (f : List (FVal α) → FVal α) (l : List (FVal α)) :
    List (FVal α) :=
  (List.range l.length).map (fun i => f (windowAt p l i))

open FVal in
/-- Rolling-window mean with `min_periods=1`: the mean of the non-`nan`
observations, `nan` when there are none. -/
def meanFn [LinearOrderedField α] (w : List (FVal α)) : FVal α :=
  let valid := w.filter (fun v => !isNan v)
  if valid.isEmpty then nan
  else div (valid.foldl add (num 0)) (num valid.length)

open FVal in
/-- Rolling-window minimum (`nan`-skipping, `min_periods=1`). -/
def minFn [LinearOrderedField α] (w : List (FVal α)) : FVal α :=
  match (obs w).min? with
  | some m => num m
  | none => nan

open FVal in
/-- Rolling-window maximum (`nan`-skipping, `min_periods=1`). -/
def maxFn [LinearOrderedField α] (w : List (FVal α)) : FVal α :=
  match (obs w).max? with
  | some m => num m
  | none => nan

open FVal in
/-- Rolling-window sample variance (`ddof=1`, the `pandas` default):
defined only with at least two observations. -/
def varFn [LinearOrderedField α] (w : List (FVal α)) : FVal α :=
  let xs := obs w
  if xs.length < 2 then nan
  else
    let n : α := xs.length
    let m := (xs.foldl (· + ·) 0) / n
    num ((xs.foldl (fun acc x => acc + (x - m) ^ 2) 0) / (n - 1))

open FVal in
/-- One step of the `pandas` exponentially-weighted mean recursion
(`adjust=False`, `ignore_na=False`): state is `some (avg, old_wt)` once a
valid observation has been seen.  A missing value decays the old weight
and re-emits the running average; a valid one updates it with the
renormalised weights and resets `old_wt` to 1. -/
def ewmStep (alpha : α) [LinearOrderedField α] (state : Option (α × α)) (x : FVal α) :
    Option (α × α) × FVal α :=
  match state, x with
  | none, num c => (some (c, 1), num c)
  | none, _ => (none, nan)
  | some (w, oldWt), num c =>
    let oldWt' := oldWt * (1 - alpha)
    let w' := (oldWt' * w + alpha * c) / (oldWt' + alpha)
    (some (w', 1), num w')
  | some (w, oldWt), _ => (some (w, oldWt * (1 - alpha)), num w)

/-- `Series.ewm(...).mean()` with smoothing factor `alpha`. -/
def ewmCol [LinearOrderedField α] (alpha : α) (l : List (FVal α)) : List (FVal α) :=
  (l.foldl (fun (acc : Option (α × α) × List (FVal α)) x =>
    let s := ewmStep alpha acc.1 x
    (s.1, acc.2 ++ [s.2])) (none, [])).2

/-- `Series.ewm(span=p, adjust=False)`: `alpha = 2 / (span + 1)`. -/
def ewmSpan [LinearOrderedField α] (span : Nat) (l : List (FVal α)) : List (FVal α) :=
  ewmCol (2 / ((span : α) + 1)) l

/-- `Series.ewm(com=c, adjust=False)`: `alpha = 1 / (1 + com)`. -/
def ewmCom [LinearOrderedField α] (com : α) (l : List (FVal α)) : List (FVal α) :=
  ewmCol (1 / (1 + com)) l

/-! ## Processing layer (`layers/processing.py`) -/

/-- A raw provider record.  The date is a free-form string; each numeric
field is `none` when it is absent from the record or when
`pd.to_numeric(errors="coerce")` cannot parse it — both cases end up as
`0.0` in the normalised output (`df[col] = 0.0` for a missing required
column, `fillna(0.0)` for an unparseable value). -/
structure RawRec (α : Type u) where
  date : String
  open_ : Option α
  high : Option α
  low : Option α
  close : Option α
  volume : Option α
  amount : Option α
  pct_chg : Option α
deriving DecidableEq

/-- A normalised record: ISO date string plus numeric columns.  Numeric
fields are machine floats (`fill_missing` can later introduce `nan`). -/
structure NRec (α : Type u) where
  date : String
  open_ : FVal α
  high : FVal α
  low : FVal α
  close : FVal α
  volume : FVal α
  amount : FVal α
  pct_chg : FVal α
deriving DecidableEq

/-- Row-wise coercion performed by `normalize_ohlcv`: the parsed date is
re-formatted (to `d`) and every numeric field is coerced with default
`0.0`. -/
def coerceRec [LinearOrderedField α] (d : String) (r : RawRec α) : NRec α :=
  ⟨d, .num (r.open_.getD 0), .num (r.high.getD 0), .num (r.low.getD 0),
    .num (r.close.getD 0), .num (r.volume.getD 0), .num (r.amount.getD 0),
    .num (r.pct_chg.getD 0)⟩

/-- Date parsing, coercion and dropping of unparseable dates
(`pd.to_datetime(errors="coerce")`, `dropna(subset=["date"])`,
`strftime("%Y-%m-%d")`).  `parseFmt` abstracts the `pandas` date parser
composed with the ISO formatter: `none` means the date fails to parse. -/
def parseStep [LinearOrderedField α] (parseFmt : String → Option String)
    (records : List (RawRec α)) : List (NRec α) :=
  records.filterMap (fun q => (parseFmt q.date).map (fun d => coerceRec d q))

/-- Python string comparison: strict lexicographic order on code points
(`s1 < s2`), as used by `sort_values` on the ISO date strings. -/
def lexLtB : List Char → List Char → Bool
  | [], [] => false
  | [], _ :: _ => true
  | _ :: _, [] => false
  | a :: as, b :: bs => if a < b then true else if b < a then false else lexLtB as bs

/-- Python `s1 <= s2` on strings. -/
def strLeB (a b : String) : Bool := !(lexLtB b.data a.data)

/-- Python `s1 < s2` on strings. -/
def strLtB (a b : String) : Bool := lexLtB a.data b.data

/-- `drop_duplicates(subset=["date"], keep="last")`: a row is kept iff no
later row shares its date; kept rows stay in input order (the order of the
last occurrences). -/
def keepLast : List (NRec α) → List (NRec α)
  | [] => []
  | x :: xs => if xs.any (fun y => y.date == x.date) then keepLast xs else x :: keepLast xs

/-- The row order used by `sort_values("date")`: weak inequality of the
date strings. -/
def dleRel (a b : NRec α) : Prop := strLeB a.date b.date = true

instance : DecidableRel (dleRel (α := α)) :=
  fun a b => inferInstanceAs (Decidable (strLeB a.date b.date = true))

/-- `sort_values("date")`: sort ascending by the date string.  (The keys
are unique after deduplication, so any comparison sort gives the same
list.) -/
def sort_values (l : List (NRec α)) : List (NRec α) :=
  List.insertionSort dleRel l

/-- `ProcessingLayer.normalize_ohlcv`: empty input short-circuits; else
parse/coerce/drop, deduplicate dates keeping the last occurrence, and sort
ascending by date. -/
def normalize_ohlcv [LinearOrderedField α] (parseFmt : String → Option String)
    (records : List (RawRec α)) : List (NRec α) :=
  if records.isEmpty then []
  else sort_values (keepLast (parseStep parseFmt records))

/-- Python truthiness of an optional string (`if start_date:`). -/
def truthy : Option String → Bool
  | none => false
  | some s => !s.isEmpty

/-- `ProcessingLayer.filter_date_range`: keep rows with
`start_date ≤ date ≤ end_date`, each bound applied only when truthy. -/
def filter_date_range (l : List (NRec α)) (start stop : Option String) : List (NRec α) :=
  let l1 := if truthy start then l.filter (fun r => strLeB (start.getD "") r.date) else l
  if truthy stop then l1.filter (fun r => strLeB r.date (stop.getD "")) else l1

/-- `replace(0, None)` on a price cell: an exact zero becomes missing. -/
def zeroToNan [LinearOrderedField α] : FVal α → FVal α
  | .num a => if a = 0 then .nan else .num a
  | v => v

/-- A cell after `replace(0, None)`, falling back to the forward-fill
state when missing. -/
def ffillCell [LinearOrderedField α] (v s : FVal α) : FVal α :=
  match zeroToNan v with
  | .nan => s
  | w => w

/-- The forward-fill recursion of `fill_missing` over the four price
columns; the state holds the last non-missing value of each column
(initially `nan`, so leading zeros stay `NaN`). -/
def fillGo [LinearOrderedField α] (s : FVal α × FVal α × FVal α × FVal α) :
    List (NRec α) → List (NRec α)
  | [] => []
  | r :: rs =>
    let o := ffillCell r.open_ s.1
    let h := ffillCell r.high s.2.1
    let lo := ffillCell r.low s.2.2.1
    let c := ffillCell r.close s.2.2.2
    { r with open_ := o, high := h, low := lo, close := c } :: fillGo (o, h, lo, c) rs

/-- `ProcessingLayer.fill_missing`:
`df[price_cols] = df[price_cols].replace(0, None).ffill()` (the
`df.empty` guard is the `[]` case of the recursion). -/
def fill_missing [LinearOrderedField α] (l : List (NRec α)) : List (NRec α) :=
  fillGo (.nan, .nan, .nan, .nan) l

/-- A record after `add_basic_metrics`: the normalised columns plus
`change` and `amplitude` (and a possibly recomputed `pct_chg`). -/
structure MRec (α : Type u) where
  date : String
  open_ : FVal α
  high : FVal α
  low : FVal α
  close : FVal α
  volume : FVal α
  amount : FVal α
  pct_chg : FVal α
  change : FVal α
  amplitude : FVal α
deriving DecidableEq

open FVal in
/-- `ProcessingLayer.add_basic_metrics`: `change = close.diff().round(4)`;
`pct_chg` is recomputed from `close.pct_change() * 100` when the existing
column is uniformly zero (the model always carries the column, so the
"column absent" arm of the source condition cannot arise);
`amplitude = (high − low) / denominator * 100` with
`denominator = prev_close.where(prev_close != 0, close)` (`NaN != 0` is
true in `pandas`, so a missing previous close stays missing). -/
def add_basic_metrics [LinearOrderedField α] [FloorRing α] (l : List (NRec α)) :
    List (MRec α) :=
  if l.isEmpty then []
  else
    let closes := l.map (·.close)
    let prevClose := shift1 closes
    let change := (diffCol closes).map round4
    let allZero := l.all (fun r => r.pct_chg == FVal.num 0)
    let pct :=
      if allZero then
        (List.zipWith (fun c p => round4 (mul (div (sub c p) p) (num 100))) closes prevClose)
      else l.map (·.pct_chg)
    let denom := List.zipWith
      (fun p c => match p with | FVal.num a => if a = 0 then c else FVal.num a | v => v)
      prevClose closes
    let amp := List.zipWith₃
      (fun h lo d => round4 (mul (div (sub h lo) d) (num 100)))
      (l.map (·.high)) (l.map (·.low)) denom
    (l.zip ((change.zip pct).zip amp)).map
      (fun rc =>
        ⟨rc.1.date, rc.1.open_, rc.1.high, rc.1.low, rc.1.close, rc.1.volume,
          rc.1.amount, rc.2.1.2, rc.2.1.1, rc.2.2⟩)

/-- `ProcessingLayer.to_records`: `DataFrame.to_dict("records")` — the
identity on this record-level representation. -/
def to_records (l : List (MRec α)) : List (MRec α) := l

/-! ### The lexicographic string order is a strict total order -/

theorem lexLtB_irrefl : ∀ l : List Char, lexLtB l l = false
  | [] => rfl
  | a :: as => by simp [lexLtB, lexLtB_irrefl as]

theorem lexLtB_trans : ∀ (a b c : List Char),
    lexLtB a b = true → lexLtB b c = true → lexLtB a c = true
  | [], [], _, hab, _ => by simp [lexLtB] at hab
  | [], _ :: _, [], _, hbc => by simp [lexLtB] at hbc
  | [], _ :: _, _ :: _, _, _ => rfl
  | _ :: _, [], _, hab, _ => by simp [lexLtB] at hab
  | _ :: _, _ :: _, [], _, hbc => by simp [lexLtB] at hbc
  | x :: xs, y :: ys, z :: zs, hab, hbc => by
    simp only [lexLtB] at hab hbc ⊢
    by_cases hxy : x < y
    · by_cases hyz : y < z
      · simp [lt_trans hxy hyz]
      · by_cases hzy : z < y
        · simp [hyz, hzy] at hbc
        · cases le_antisymm (not_lt.1 hzy) (not_lt.1 hyz)
          simp [hxy]
    · by_cases hyx : y < x
      · simp [hxy, hyx] at hab
      · cases le_antisymm (not_lt.1 hyx) (not_lt.1 hxy)
        simp only [hxy, if_neg, ite_self, lt_irrefl, if_false] at hab ⊢
        by_cases hxz : x < z
        · simp [hxz]
        · by_cases hzx : z < x
          · simp [hxz, hzx] at hbc
          · cases le_antisymm (not_lt.1 hzx) (not_lt.1 hxz)
            simp only [lt_irrefl, if_false] at hbc ⊢
            exact lexLtB_trans xs ys zs hab hbc

theorem lexLtB_connex : ∀ (a b : List Char), a ≠ b →
    lexLtB a b = true ∨ lexLtB b a = true
  | [], [], h => absurd rfl h
  | [], _ :: _, _ => Or.inl rfl
  | _ :: _, [], _ => Or.inr rfl
  | x :: xs, y :: ys, h => by
    by_cases hxy : x < y
    · exact Or.inl (by simp [lexLtB, hxy])
    · by_cases hyx : y < x
      · exact Or.inr (by simp [lexLtB, hyx])
      · cases le_antisymm (not_lt.1 hyx) (not_lt.1 hxy)
        have hne : xs ≠ ys := fun hh => h (by rw [hh])
        rcases lexLtB_connex xs ys hne with hh | hh
        · exact Or.inl (by simp [lexLtB, hh])
        · exact Or.inr (by simp [lexLtB, hh])

theorem lexLtB_asymm {a b : List Char} (h : lexLtB a b = true) : lexLtB b a = false := by
  by_contra hh
  have hba : lexLtB b a = true := by revert hh; cases lexLtB b a <;> simp
  have := lexLtB_trans a b a h hba
  rw [lexLtB_irrefl] at this
  exact Bool.false_ne_true this

/-- Two unequal strings compare strictly in one direction (`s ≤ t` and
`s ≠ t` give `s < t`). -/
theorem strLeB_ne_lt {a b : String} (hle : strLeB a b = true) (hne : a ≠ b) :
    strLtB a b = true := by
  have hdata : a.data ≠ b.data := fun hd => hne (String.ext hd)
  rcases lexLtB_connex a.data b.data hdata with h | h
  · exact h
  · exfalso
    unfold strLeB at hle
    rw [h] at hle
    simp at hle

instance : IsTotal (NRec α) dleRel := by
  constructor
  intro a b
  unfold dleRel strLeB
  cases hab : lexLtB b.date.data a.date.data
  · left; rfl
  · right
    rw [lexLtB_asymm hab]
    rfl

instance : IsTrans (NRec α) dleRel := by
  constructor
  intro a b c hab hbc
  unfold dleRel strLeB at hab hbc ⊢
  by_contra hca
  have hca' : lexLtB c.date.data a.date.data = true := by
    revert hca; cases lexLtB c.date.data a.date.data <;> simp
  by_cases hbceq : b.date.data = c.date.data
  · rw [← hbceq] at hca'
    rw [hca'] at hab
    simp at hab
  · rcases lexLtB_connex b.date.data c.date.data hbceq with h | h
    · have := lexLtB_trans _ _ _ h hca'
      rw [this] at hab
      simp at hab
    · rw [h] at hbc
      simp at hbc

/-! ### Deduplication keeps exactly the last record per date -/

theorem keepLast_subset : ∀ (l : List (NRec α)) (y : NRec α), y ∈ keepLast l → y ∈ l
  | [], _, hy => by simp [keepLast] at hy
  | x :: xs, y, hy => by
    by_cases h : xs.any (fun z => z.date == x.date)
    · rw [keepLast, if_pos h] at hy
      exact List.mem_cons_of_mem x (keepLast_subset xs y hy)
    · rw [keepLast, if_neg h] at hy
      rcases List.mem_cons.1 hy with rfl | hy'
      · exact List.mem_cons_self _ _
      · exact List.mem_cons_of_mem x (keepLast_subset xs y hy')

theorem keepLast_dates_nodup : ∀ l : List (NRec α), ((keepLast l).map NRec.date).Nodup
  | [] => by simp [keepLast]
  | x :: xs => by
    by_cases h : xs.any (fun z => z.date == x.date)
    · rw [keepLast, if_pos h]
      exact keepLast_dates_nodup xs
    · rw [keepLast, if_neg h]
      simp only [List.map_cons, List.nodup_cons]
      refine ⟨?_, keepLast_dates_nodup xs⟩
      intro hmem
      rcases List.mem_map.1 hmem with ⟨z, hz, hzd⟩
      exact h (List.any_eq_true.2 ⟨z, keepLast_subset xs z hz, by simp [hzd]⟩)

theorem getLast?_cons_of_ne_nil {x : β} {t : List β} (h : t ≠ []) :
    (x :: t).getLast? = t.getLast? := by
  cases t with
  | nil => exact absurd rfl h
  | cons a t' => exact List.getLast?_cons_cons

theorem keepLast_getLast : ∀ (l : List (NRec α)) (r : NRec α), r ∈ keepLast l →
    (l.filter (fun y => y.date == r.date)).getLast? = some r
  | [], _, hr => by simp [keepLast] at hr
  | x :: xs, r, hr => by
    by_cases h : xs.any (fun z => z.date == x.date)
    · rw [keepLast, if_pos h] at hr
      have ih := keepLast_getLast xs r hr
      rw [List.filter_cons]
      by_cases hxd : (x.date == r.date) = true
      · rw [if_pos hxd]
        have hne : xs.filter (fun y => y.date == r.date) ≠ [] := by
          intro hnil
          rw [hnil] at ih
          simp at ih
        rw [getLast?_cons_of_ne_nil hne]
        exact ih
      · rw [if_neg hxd]
        exact ih
    · rw [keepLast, if_neg h] at hr
      rcases List.mem_cons.1 hr with rfl | hr'
      · rw [List.filter_cons, if_pos (by simp)]
        have hnil : xs.filter (fun y => y.date == r.date) = [] := by
          rw [List.filter_eq_nil_iff]
          intro z hz hzd
          exact h (List.any_eq_true.2 ⟨z, hz, hzd⟩)
        rw [hnil]
        rfl
      · have hrxs := keepLast_subset xs r hr'
        have hxd : (x.date == r.date) = false := by
          by_contra hxd
          have hxd' : (x.date == r.date) = true := by
            revert hxd; cases x.date == r.date <;> simp
          exact h (List.any_eq_true.2 ⟨r, hrxs, by
            rw [beq_iff_eq] at hxd' ⊢
            exact hxd'.symm⟩)
        rw [List.filter_cons, if_neg (by simp [hxd])]
        exact keepLast_getLast xs r hr'

theorem keepLast_date_mem : ∀ (l : List (NRec α)) (d : String),
    (∃ y ∈ l, y.date = d) → ∃ z ∈ keepLast l, z.date = d
  | [], _, ⟨_, hy, _⟩ => by simp at hy
  | x :: xs, d, ⟨y, hy, hyd⟩ => by
    by_cases h : xs.any (fun z => z.date == x.date)
    · rw [keepLast, if_pos h]
      rcases List.mem_cons.1 hy with rfl | hy'
      · rcases List.any_eq_true.1 h with ⟨w, hw, hwd⟩
        rw [beq_iff_eq] at hwd
        exact keepLast_date_mem xs d ⟨w, hw, hwd.trans hyd⟩
      · exact keepLast_date_mem xs d ⟨y, hy', hyd⟩
    · rw [keepLast, if_neg h]
      rcases List.mem_cons.1 hy with rfl | hy'
      · exact ⟨y, List.mem_cons_self _ _, hyd⟩
      · rcases keepLast_date_mem xs d ⟨y, hy', hyd⟩ with ⟨z, hz, hzd⟩
        exact ⟨z, List.mem_cons_of_mem x hz, hzd⟩

@[simp]
theorem coerceRec_date [LinearOrderedField α] (d : String) (q : RawRec α) :
    (coerceRec d q).date = d := rfl

/-- Filtering the parsed rows by a date is filtering the raw records by
parsing to that date (then coercing). -/
theorem parseStep_filter [LinearOrderedField α] (pf : String → Option String)
    (records : List (RawRec α)) (d : String) :
    (parseStep pf records).filter (fun y => y.date == d)
      = (records.filter (fun q => pf q.date == some d)).map (fun q => coerceRec d q) := by
  induction records with
  | nil => rfl
  | cons q qs ih =>
    simp only [parseStep] at ih ⊢
    rw [List.filterMap_cons, List.filter_cons]
    cases hq : pf q.date with
    | none => simp [hq, ih]
    | some e =>
      by_cases hd : e = d
      · subst hd
        simp [hq, List.filter_cons, ih]
      · simp [hq, List.filter_cons, hd, ih]

/-- C5: for every input list of raw records, the normalised series has
unique, strictly ascending dates (in Python's lexicographic string order,
which on ISO dates is chronological); every output row is the coercion of
the *last* raw record (in input order) whose date parses to that row's
date (last-write-wins); rows whose date fails to parse are dropped, and
every successfully parsed date is represented. -/
theorem normalize_ohlcv_spec [LinearOrderedField α] (pf : String → Option String)
    (records : List (RawRec α)) :
    List.Chain' (fun a b : NRec α => strLtB a.date b.date = true)
      (normalize_ohlcv pf records) ∧
    (∀ r ∈ normalize_ohlcv pf records,
      ∃ raw, (records.filter (fun q => pf q.date == some r.date)).getLast? = some raw ∧
        raw ∈ records ∧ pf raw.date = some r.date ∧ r = coerceRec r.date raw) ∧
    (∀ raw ∈ records, ∀ d, pf raw.date = some d →
      ∃ r ∈ normalize_ohlcv pf records, r.date = d) := by
  by_cases hre : records.isEmpty = true
  · have hnil : records = [] := List.isEmpty_iff.1 hre
    subst hnil
    exact ⟨by simp [normalize_ohlcv], by simp [normalize_ohlcv], by simp⟩
  · have hnorm : normalize_ohlcv pf records
        = sort_values (keepLast (parseStep pf records)) := by
      rw [normalize_ohlcv, if_neg hre]
    have hperm : (normalize_ohlcv pf records).Perm (keepLast (parseStep pf records)) := by
      rw [hnorm]
      exact List.perm_insertionSort dleRel _
    refine ⟨?_, ?_, ?_⟩
    · have hpair : List.Pairwise dleRel (normalize_ohlcv pf records) := by
        rw [hnorm]
        exact List.sorted_insertionSort dleRel _
      have hnd : ((normalize_ohlcv pf records).map NRec.date).Nodup :=
        ((hperm.map NRec.date).nodup_iff).2 (keepLast_dates_nodup _)
      have hne : List.Pairwise (fun a b : NRec α => a.date ≠ b.date)
          (normalize_ohlcv pf records) := List.pairwise_map.1 hnd
      exact ((hpair.and hne).imp (fun h => strLeB_ne_lt h.1 h.2)).chain'
    · intro r hr
      have hr' : r ∈ keepLast (parseStep pf records) := hperm.mem_iff.1 hr
      have hlast := keepLast_getLast _ r hr'
      rw [parseStep_filter, List.getLast?_map] at hlast
      cases hopt : (records.filter (fun q => pf q.date == some r.date)).getLast? with
      | none => rw [hopt] at hlast; simp at hlast
      | some raw =>
        rw [hopt] at hlast
        simp only [Option.map_some'] at hlast
        have hrc : r = coerceRec r.date raw := (Option.some.inj hlast).symm
        have hmemf := List.mem_of_mem_getLast? hopt
        rcases List.mem_filter.1 hmemf with ⟨hmem, hpred⟩
        exact ⟨raw, hopt ▸ rfl, hmem, by rwa [beq_iff_eq] at hpred, hrc⟩
    · intro raw hraw d hpf
      have hps : coerceRec d raw ∈ parseStep pf records :=
        List.mem_filterMap.2 ⟨raw, hraw, by rw [hpf]; rfl⟩
      rcases keepLast_date_mem (parseStep pf records) d ⟨_, hps, coerceRec_date _ _⟩
        with ⟨z, hz, hzd⟩
      exact ⟨z, hperm.mem_iff.2 hz, hzd⟩

/-- Date parser used by the C5 witness: `"bad"` fails to parse, everything
else is already ISO-formatted. -/
def pfW : String → Option String := fun s => if s = "bad" then none else some s

/-- A raw record with only a date and a close value. -/
def rawW (d : String) (c : ℚ) : RawRec ℚ := ⟨d, none, none, none, some c, none, none, none⟩

/-- C5 witness input: an out-of-order list with one unparseable date and a
duplicated date. -/
def recordsW : List (RawRec ℚ) :=
  [rawW "2024-01-02" 1, rawW "bad" 5, rawW "2024-01-01" 9, rawW "2024-01-02" 2]

/-- The surviving record for the duplicated date: the *last* occurrence. -/
def nrm2 : NRec ℚ := coerceRec "2024-01-02" (rawW "2024-01-02" 2)

/-- Witness for C5 on `recordsW`: output strictly ascending, the duplicate
date resolves to the last matching raw record, and the parseable dates are
represented. -/
theorem normalize_ohlcv_spec_w :
    List.Chain' (fun a b : NRec ℚ => strLtB a.date b.date = true)
      (normalize_ohlcv pfW recordsW) ∧
    (∃ raw, (recordsW.filter (fun q => pfW q.date == some nrm2.date)).getLast?
        = some raw ∧
      raw ∈ recordsW ∧ pfW raw.date = some nrm2.date ∧ nrm2 = coerceRec nrm2.date raw) ∧
    (∃ r ∈ normalize_ohlcv pfW recordsW, r.date = "2024-01-01") := by
  have h := normalize_ohlcv_spec pfW recordsW
  exact ⟨h.1, h.2.1 nrm2 (by decide),
    h.2.2 (rawW "2024-01-01" 9) (by decide) "2024-01-01" (by decide)⟩

/-! ## Orchestrator (`services/stock_service.py`) -/

/-- The full post-acquisition pipeline of `get_stock_history`:
normalize → filter by date range → fill missing → add basic metrics →
convert to records. -/
def stock_history_pipeline [LinearOrderedField α] [FloorRing α]
    (parseFmt : String → Option String) (start stop : Option String)
    (raw : List (RawRec α)) : List (MRec α) :=
  to_records (add_basic_metrics (fill_missing
    (filter_date_range (normalize_ohlcv parseFmt raw) start stop)))

/-- Observable outcome of one `get_stock_history` call: the returned
records, what (if anything) was written to the cache, and whether the
Normalizer pipeline ran. -/
structure HistOutcome (γ : Type u) where
  result : List γ
  cacheWritten : Option (List γ)
  normalizerUsed : Bool
deriving DecidableEq

/-- `StockService.get_stock_history` as a function of the cache-lookup
result (`cached`, consulted only when `forceRefresh` is off) and the
acquisition result (`raw`): a cache hit returns immediately; empty raw
records short-circuit to `[]`; otherwise the pipeline runs and its output
is both written back to the cache and returned. -/
def get_stock_history_svc (forceRefresh : Bool) (cached : Option (List γ))
    (raw : List ρ) (pipeline : List ρ → List γ) : HistOutcome γ :=
  match forceRefresh, cached with
  | false, some v => ⟨v, none, false⟩
  | _, _ =>
    if raw.isEmpty then ⟨[], none, false⟩
    else
      let records := pipeline raw
      ⟨records, some records, true⟩

/-- C7: whenever acquisition is actually consulted (a forced refresh or a
cache miss) and returns an empty raw-record list, `get_stock_history`
returns the empty result immediately: the Normalizer does not run and
nothing is written to the cache. -/
theorem get_stock_history_empty_short_circuit (forceRefresh : Bool)
    (cached : Option (List γ)) (raw : List ρ) (pipeline : List ρ → List γ)
    (hmiss : forceRefresh = true ∨ cached = none) (hraw : raw = []) :
    get_stock_history_svc forceRefresh cached raw pipeline = ⟨[], none, false⟩ := by
  subst hraw
  rcases hmiss with rfl | rfl
  · cases cached <;> rfl
  · cases forceRefresh <;> rfl

/-- Witness for C7 with the real pipeline instantiated at ℚ: a cache miss
together with empty acquisition yields the empty outcome. -/
theorem get_stock_history_empty_short_circuit_w :
    get_stock_history_svc false none ([] : List (RawRec ℚ))
      (stock_history_pipeline (fun s => some s) (some "2024-01-01") (some "2024-03-31"))
      = ⟨[], none, false⟩ :=
  get_stock_history_empty_short_circuit false none [] _ (Or.inr rfl) rfl

/-! ## Analysis layer (`layers/analysis.py`) -/

/-- The analysis-layer data frame: the canonical base columns plus the
indicator columns assigned at runtime (`extra`, in assignment order).
`pandas` column assignment overwrites, so lookups scan `extra` from the
most recent assignment backwards. -/
structure DF (α : Type u) where
  date : List String
  open_ : List (FVal α)
  high : List (FVal α)
  low : List (FVal α)
  close : List (FVal α)
  volume : List (FVal α)
  extra : List (String × List (FVal α))
deriving DecidableEq

/-- `df.empty`: the frame has no rows. -/
def DF.isEmpty (df : DF α) : Bool := df.date.isEmpty

/-- Column lookup: latest assignment first, then the base columns. -/
def DF.col? (df : DF α) (name : String) : Option (List (FVal α)) :=
  match df.extra.reverse.find? (fun kv => kv.1 == name) with
  | some kv => some kv.2
  | none =>
    if name = "open" then some df.open_
    else if name = "high" then some df.high
    else if name = "low" then some df.low
    else if name = "close" then some df.close
    else if name = "volume" then some df.volume
    else none

/-- A cell of a named column. -/
def DF.cell? (df : DF α) (name : String) (i : Nat) : Option (FVal α) :=
  (df.col? name).bind (fun c => c.get? i)

/-- `df[name] = col`. -/
def DF.addCol (df : DF α) (name : String) (col : List (FVal α)) : DF α :=
  { df with extra := df.extra ++ [(name, col)] }

/-- `AnalysisLayer.add_ma`: empty frame unchanged; else one simple
rolling mean (`min_periods=1`, rounded to 4 decimals) per period.  The
empty period list models Python's falsy `periods` (`periods or
[5, 10, 20, 60]`). -/
def add_ma [LinearOrderedField α] [FloorRing α] (df : DF α) (periods : List Nat) : DF α :=
  if df.isEmpty then df
  else
    (if periods = [] then [5, 10, 20, 60] else periods).foldl
      (fun d p =>
        d.addCol ("MA" ++ toString p) ((rollingApply p meanFn df.close).map FVal.round4))
      df

/-- `AnalysisLayer.add_ema`: exponentially weighted means
(`span=p, adjust=False`), rounded. -/
def add_ema [LinearOrderedField α] [FloorRing α] (df : DF α) (periods : List Nat) : DF α :=
  if df.isEmpty then df
  else
    (if periods = [] then [12, 26] else periods).foldl
      (fun d p => d.addCol ("EMA" ++ toString p) ((ewmSpan p df.close).map FVal.round4))
      df

open FVal in
/-- `AnalysisLayer.add_macd`: DIF is rounded before DEA is computed from
the stored column, exactly as in the source. -/
def add_macd [LinearOrderedField α] [FloorRing α] (df : DF α)
    (fast slow signal : Nat) : DF α :=
  if df.isEmpty then df
  else
    let emaFast := ewmSpan fast df.close
    let emaSlow := ewmSpan slow df.close
    let dif := (List.zipWith sub emaFast emaSlow).map round4
    let dea := (ewmSpan signal dif).map round4
    let hist := (List.zipWith (fun a b => mul (num 2) (sub a b)) dif dea).map round4
    ((df.addCol "MACD_DIF" dif).addCol "MACD_DEA" dea).addCol "MACD_HIST" hist

open FVal in
/-- One RSI column: gains and losses are rolling means (`min_periods=1`)
of the clipped consecutive deltas, the zero loss-averages are replaced by
`float("inf")` *in the denominator*, and `RSI = 100 − 100/(1 + rs)`
rounded to 4 decimals. -/
def rsiCol [LinearOrderedField α] [FloorRing α] (p : Nat)
    (delta : List (FVal α)) : List (FVal α) :=
  let gain := rollingApply p meanFn (delta.map clipLower0)
  let loss := rollingApply p meanFn (delta.map (fun v => neg (clipUpper0 v)))
  let rs := List.zipWith div gain (loss.map (replace0 inf))
  rs.map (fun v => round4 (sub (num 100) (div (num 100) (add (num 1) v))))

/-- `AnalysisLayer.add_rsi`. -/
def add_rsi [LinearOrderedField α] [FloorRing α] (df : DF α) (periods : List Nat) : DF α :=
  if df.isEmpty then df
  else
    let delta := diffCol df.close
    (if periods = [] then [6, 14] else periods).foldl
      (fun d p => d.addCol ("RSI" ++ toString p) (rsiCol p delta)) df

open FVal in
/-- The rolling sample standard deviation: the square root of `varFn`.
`sqrtF` abstracts the floating-point square root used inside
`pandas.rolling(...).std()`; the only property the development relies on
is that it is non-negative. -/
def stdFn [LinearOrderedField α] (sqrtF : α → α) (w : List (FVal α)) : FVal α :=
  match varFn w with
  | num v => num (sqrtF v)
  | x => x

open FVal in
/-- `AnalysisLayer.add_bollinger`: mid = rolling mean, upper/lower =
`mid ± std_dev * std`, all rounded to 4 decimals. -/
def add_bollinger [LinearOrderedField α] [FloorRing α] (sqrtF : α → α) (df : DF α)
    (period : Nat) (stdDev : α) : DF α :=
  if df.isEmpty then df
  else
    let mid := rollingApply period meanFn df.close
    let std := rollingApply period (stdFn sqrtF) df.close
    let upper := (List.zipWith (fun m s => add m (mul (num stdDev) s)) mid std).map round4
    let lower := (List.zipWith (fun m s => sub m (mul (num stdDev) s)) mid std).map round4
    ((df.addCol "BOLL_MID" (mid.map round4)).addCol "BOLL_UPPER" upper).addCol
      "BOLL_LOWER" lower

open FVal in
/-- `AnalysisLayer.add_kdj`: RSV from rolling extrema with the zero
denominator replaced by 1, then two exponential smoothings
(`com = signal − 1`) and `J = 3K − 2D`.  (The base columns always exist in
this model, so the source's missing-column guard reduces to the emptiness
check.) -/
def add_kdj [LinearOrderedField α] [FloorRing α] (df : DF α)
    (period signal : Nat) : DF α :=
  if df.isEmpty then df
  else
    let lowMin := rollingApply period minFn df.low
    let highMax := rollingApply period maxFn df.high
    let denom := (List.zipWith sub highMax lowMin).map (replace0 (num 1))
    let rsv := List.zipWith₃ (fun c lm d => mul (div (sub c lm) d) (num 100))
      df.close lowMin denom
    let k := (ewmCom ((signal : α) - 1) rsv).map round4
    let d := (ewmCom ((signal : α) - 1) k).map round4
    let j := List.zipWith (fun a b => round4 (sub (mul (num 3) a) (mul (num 2) b))) k d
    ((df.addCol "KDJ_K" k).addCol "KDJ_D" d).addCol "KDJ_J" j

open FVal in
/-- `AnalysisLayer.add_atr`: true range as the `nan`-skipping row-wise max
of the three candidate ranges, then a rolling mean (`min_periods=1`),
rounded. -/
def add_atr [LinearOrderedField α] [FloorRing α] (df : DF α) (period : Nat) : DF α :=
  if df.isEmpty then df
  else
    let prevClose := shift1 df.close
    let t1 := List.zipWith sub df.high df.low
    let t2 := (List.zipWith sub df.high prevClose).map fabs
    let t3 := (List.zipWith sub df.low prevClose).map fabs
    let tr := List.zipWith₃ (fun a b c => maxFn [a, b, c]) t1 t2 t3
    df.addCol ("ATR" ++ toString period) ((rollingApply period meanFn tr).map round4)

/-! ## Theorems about the analysis layer -/

/-- C9: every indicator transform applied to an empty series is the
identity: it returns the input frame unchanged, adds no columns and (being
a total function) raises no error. -/
theorem transforms_empty_identity [LinearOrderedField α] [FloorRing α]
    (sqrtF : α → α) (df : DF α) (h : df.isEmpty = true)
    (maPs emaPs rsiPs : List Nat) (fast slow signal : Nat)
    (bollPeriod : Nat) (stdDev : α) (kdjPeriod kdjSignal atrPeriod : Nat) :
    add_ma df maPs = df ∧ add_ema df emaPs = df ∧
    add_macd df fast slow signal = df ∧ add_rsi df rsiPs = df ∧
    add_bollinger sqrtF df bollPeriod stdDev = df ∧
    add_kdj df kdjPeriod kdjSignal = df ∧ add_atr df atrPeriod = df := by
  refine ⟨?_, ?_, ?_, ?_, ?_, ?_, ?_⟩ <;>
    simp [add_ma, add_ema, add_macd, add_rsi, add_bollinger, add_kdj, add_atr, h]

/-- The empty frame (what `normalize_ohlcv` returns on empty input). -/
def emptyDF : DF ℚ := ⟨[], [], [], [], [], [], []⟩

/-- Witness for C9 at the concrete empty frame with the default
parameters. -/
theorem transforms_empty_identity_w :
    add_ma emptyDF [] = emptyDF ∧ add_ema emptyDF [] = emptyDF ∧
    add_macd emptyDF 12 26 9 = emptyDF ∧ add_rsi emptyDF [] = emptyDF ∧
    add_bollinger (fun _ => 0) emptyDF 20 2 = emptyDF ∧
    add_kdj emptyDF 9 3 = emptyDF ∧ add_atr emptyDF 14 = emptyDF :=
  transforms_empty_identity (fun _ => 0) emptyDF rfl [] [] [] 12 26 9 20 2 9 3 14

/-- A two-row frame whose close rises from 1 to 2: over any window the
rolling loss average is exactly 0 at row 1. -/
def dfW2 : DF ℚ :=
  ⟨["2024-01-01", "2024-01-02"], [.num 1, .num 2], [.num 1, .num 2],
    [.num 1, .num 2], [.num 1, .num 2], [.num 1, .num 2], []⟩

/-- C2 (code bug): on a strictly rising close series the loss average at
row 1 is exactly 0; `loss.replace(0, inf)` makes the *denominator*
infinite, so `rs = gain / inf = 0` and `RSI = 100 − 100/(1+0) = 0` — the
code produces 0 where the claim (and the standard definition of RSI)
requires the saturated value 100. -/
theorem rsi_zero_loss_returns_zero :
    (add_rsi dfW2 [6]).cell? "RSI6" 1 = some (FVal.num 0) ∧
    ¬ (add_rsi dfW2 [6]).cell? "RSI6" 1 = some (FVal.num 100) := by
  have h : (add_rsi dfW2 [6]).cell? "RSI6" 1 = some (FVal.num 0) := by
    norm_num [add_rsi, rsiCol, dfW2, DF.isEmpty, DF.cell?, DF.col?, DF.addCol,
      diffCol, rollingApply, windowAt, meanFn, FVal.isNan, FVal.add, FVal.sub,
      FVal.div, FVal.mul, FVal.neg, FVal.clipLower0, FVal.clipUpper0,
      FVal.replace0, FVal.round4, FVal.pyRound, List.range_succ]
    decide
  exact ⟨h, by rw [h]; simp⟩

/-! ### Round-half-to-even is monotone -/

theorem pyRound_mem [LinearOrderedField α] [FloorRing α] (x : α) :
    FVal.pyRound x = ⌊x⌋ ∨ FVal.pyRound x = ⌊x⌋ + 1 := by
  unfold FVal.pyRound
  split_ifs <;> simp

theorem pyRound_mono [LinearOrderedField α] [FloorRing α] {a b : α} (hab : a ≤ b) :
    FVal.pyRound a ≤ FVal.pyRound b := by
  have hf : ⌊a⌋ ≤ ⌊b⌋ := Int.floor_mono hab
  rcases lt_or_eq_of_le hf with hlt | heq
  · rcases pyRound_mem a with h1 | h1 <;> rcases pyRound_mem b with h2 | h2 <;> omega
  · by_cases hra : a - ⌊a⌋ < 1 / 2
    · have ha : FVal.pyRound a = ⌊a⌋ := by unfold FVal.pyRound; rw [if_pos hra]
      rcases pyRound_mem b with h2 | h2 <;> omega
    · by_cases hrb : 1 / 2 < b - ⌊b⌋
      · have hb : FVal.pyRound b = ⌊b⌋ + 1 := by
          unfold FVal.pyRound
          rw [if_neg (by linarith), if_pos hrb]
        rcases pyRound_mem a with h1 | h1 <;> omega
      · have hcast : ((⌊a⌋ : ℤ) : α) = ((⌊b⌋ : ℤ) : α) := by exact_mod_cast heq
        have hab' : a = b := by
          have h1 : a - ⌊a⌋ = 1 / 2 := le_antisymm (by linarith) (not_lt.1 hra)
          have h2 : b - ⌊b⌋ = 1 / 2 := le_antisymm (not_lt.1 hrb) (by linarith)
          linarith
        rw [hab']

/-- The value written by `round(·, 4)` on a finite cell. -/
def round4Val [LinearOrderedField α] [FloorRing α] (x : α) : α :=
  ((FVal.pyRound (x * 10000) : ℤ) : α) / 10000

theorem round4Val_mono [LinearOrderedField α] [FloorRing α] {a b : α} (hab : a ≤ b) :
    round4Val a ≤ round4Val b := by
  have h := pyRound_mono (mul_le_mul_of_nonneg_right hab (by norm_num : (0:α) ≤ 10000))
  unfold round4Val
  gcongr

theorem round4_num [LinearOrderedField α] [FloorRing α] (x : α) :
    FVal.round4 (FVal.num x) = FVal.num (round4Val x) := rfl

/-! ### Extracting Bollinger cells -/

theorem get?_zipWith_some {β γ δ : Type u} {f : β → γ → δ} :
    ∀ (as : List β) (bs : List γ) (i : Nat) (v : δ),
      (List.zipWith f as bs).get? i = some v →
      ∃ a b, as.get? i = some a ∧ bs.get? i = some b ∧ v = f a b
  | [], _, _, _, h => by simp [List.zipWith] at h
  | _ :: _, [], _, _, h => by simp [List.zipWith] at h
  | a :: as, b :: bs, 0, v, h => by
    simp only [List.zipWith, List.get?] at h
    exact ⟨a, b, rfl, rfl, (Option.some.inj h).symm⟩
  | a :: as, b :: bs, (i + 1), v, h => by
    simp only [List.zipWith, List.get?] at h
    exact get?_zipWith_some as bs i v h

theorem rollingApply_get?_some {g : List (FVal α) → FVal α} {p : Nat}
    {l : List (FVal α)} {i : Nat} {v : FVal α}
    (h : (rollingApply p g l).get? i = some v) : ∃ w, v = g w := by
  unfold rollingApply at h
  rw [List.get?_map] at h
  cases hr : (List.range l.length).get? i with
  | none => rw [hr] at h; simp at h
  | some j =>
    rw [hr] at h
    exact ⟨windowAt p l j, by simpa using h.symm⟩

theorem stdFn_num_nonneg [LinearOrderedField α] {sqrtF : α → α}
    (hs : ∀ x, 0 ≤ sqrtF x) {w : List (FVal α)} {s : α}
    (h : stdFn sqrtF w = FVal.num s) : 0 ≤ s := by
  unfold stdFn at h
  cases hv : varFn w with
  | num v =>
    rw [hv] at h
    cases h
    exact hs v
  | nan => rw [hv] at h; exact absurd h (by simp)
  | inf => rw [hv] at h; exact absurd h (by simp)

theorem add_bollinger_cols [LinearOrderedField α] [FloorRing α] (sqrtF : α → α)
    (df : DF α) (period : Nat) (stdDev : α) (hne : df.isEmpty = false) :
    (add_bollinger sqrtF df period stdDev).col? "BOLL_MID"
      = some ((rollingApply period meanFn df.close).map FVal.round4) ∧
    (add_bollinger sqrtF df period stdDev).col? "BOLL_UPPER"
      = some ((List.zipWith (fun m s => FVal.add m (FVal.mul (FVal.num stdDev) s))
          (rollingApply period meanFn df.close)
          (rollingApply period (stdFn sqrtF) df.close)).map FVal.round4) ∧
    (add_bollinger sqrtF df period stdDev).col? "BOLL_LOWER"
      = some ((List.zipWith (fun m s => FVal.sub m (FVal.mul (FVal.num stdDev) s))
          (rollingApply period meanFn df.close)
          (rollingApply period (stdFn sqrtF) df.close)).map FVal.round4) := by
  have h1 : (("BOLL_LOWER" : String) == "BOLL_MID") = false := by decide
  have h2 : (("BOLL_UPPER" : String) == "BOLL_MID") = false := by decide
  have h3 : (("BOLL_MID" : String) == "BOLL_MID") = true := by decide
  have h4 : (("BOLL_LOWER" : String) == "BOLL_UPPER") = false := by decide
  have h5 : (("BOLL_UPPER" : String) == "BOLL_UPPER") = true := by decide
  have h6 : (("BOLL_LOWER" : String) == "BOLL_LOWER") = true := by decide
  refine ⟨?_, ?_, ?_⟩ <;>
    simp [add_bollinger, hne, DF.addCol, DF.col?, List.reverse_append,
      List.find?, h1, h2, h3, h4, h5, h6]

/-- C8: wherever the three Bollinger cells are all finite, the bands are
ordered `lower ≤ mid ≤ upper`: the written values are `round4` of
`mid ± std_dev·std` with `std` produced by a non-negative square root, and
rounding is monotone. -/
theorem bollinger_band_invariant [LinearOrderedField α] [FloorRing α]
    (sqrtF : α → α) (hsqrt : ∀ x, 0 ≤ sqrtF x) (df : DF α) (period : Nat)
    (stdDev : α) (hsd : 0 ≤ stdDev) (hne : df.isEmpty = false) (i : Nat) (u m l : α)
    (hu : (add_bollinger sqrtF df period stdDev).cell? "BOLL_UPPER" i
        = some (FVal.num u))
    (hm : (add_bollinger sqrtF df period stdDev).cell? "BOLL_MID" i
        = some (FVal.num m))
    (hl : (add_bollinger sqrtF df period stdDev).cell? "BOLL_LOWER" i
        = some (FVal.num l)) :
    l ≤ m ∧ m ≤ u := by
  obtain ⟨hcm, hcu, hcl⟩ := add_bollinger_cols sqrtF df period stdDev hne
  rw [DF.cell?, hcm] at hm
  rw [DF.cell?, hcu] at hu
  rw [DF.cell?, hcl] at hl
  simp only [Option.some_bind] at hm hu hl
  rw [List.get?_map] at hm hu hl
  rcases Option.map_eq_some'.1 hm with ⟨wm, hwmget, hwm⟩
  rcases Option.map_eq_some'.1 hu with ⟨wu, hwuget, hwu⟩
  rcases Option.map_eq_some'.1 hl with ⟨wl, hwlget, hwl⟩
  obtain ⟨au, bu, hau, hbu, hwufu⟩ := get?_zipWith_some _ _ _ _ hwuget
  obtain ⟨al, bl, hal, hbl, hwlfl⟩ := get?_zipWith_some _ _ _ _ hwlget
  have hauw : au = wm := by rw [hwmget] at hau; exact (Option.some.inj hau).symm
  have halw : al = wm := by rw [hwmget] at hal; exact (Option.some.inj hal).symm
  have hblu : bl = bu := by rw [hbu] at hbl; exact (Option.some.inj hbl).symm
  rw [hauw] at hwufu
  rw [halw, hblu] at hwlfl
  cases wm with
  | nan => exact absurd hwm (by simp [FVal.round4])
  | inf => exact absurd hwm (by simp [FVal.round4])
  | num m0 =>
    have hmv : m = round4Val m0 := by
      rw [round4_num] at hwm
      exact (FVal.num.inj hwm).symm
    cases bu with
    | nan =>
      rw [hwufu] at hwu
      exact absurd hwu (by simp [FVal.add, FVal.mul, FVal.round4])
    | inf =>
      rw [hwufu] at hwu
      by_cases hk : stdDev = 0 <;>
        exact absurd hwu (by simp [FVal.add, FVal.mul, FVal.round4, hk])
    | num s0 =>
      have hs0 : 0 ≤ s0 := by
        obtain ⟨w, hw⟩ := rollingApply_get?_some hbu
        exact stdFn_num_nonneg hsqrt hw.symm
      have huv : u = round4Val (m0 + stdDev * s0) := by
        rw [hwufu] at hwu
        simp only [FVal.mul, FVal.add] at hwu
        rw [round4_num] at hwu
        exact (FVal.num.inj hwu).symm
      have hlv : l = round4Val (m0 - stdDev * s0) := by
        rw [hwlfl] at hwl
        simp only [FVal.mul, FVal.sub] at hwl
        rw [round4_num] at hwl
        exact (FVal.num.inj hwl).symm
      have hks : 0 ≤ stdDev * s0 := mul_nonneg hsd hs0
      constructor
      · rw [hlv, hmv]
        exact round4Val_mono (by linarith)
      · rw [hmv, huv]
        exact round4Val_mono (by linarith)

/-- Two-row constant-price frame for the C8 witness (its window of two
observations has variance 0, so all three bands coincide at 0). -/
def dfB : DF ℚ :=
  ⟨["d1", "d2"], [.num 0, .num 0], [.num 0, .num 0], [.num 0, .num 0],
    [.num 0, .num 0], [.num 0, .num 0], []⟩

/-- Witness for C8: at row 1 of `dfB` all three bands are defined (and
equal 0), and the invariant instantiates to `0 ≤ 0 ∧ 0 ≤ 0`. -/
theorem bollinger_band_invariant_w :
    (add_bollinger (fun _ : ℚ => 0) dfB 2 2).cell? "BOLL_UPPER" 1 = some (FVal.num 0) ∧
    (add_bollinger (fun _ : ℚ => 0) dfB 2 2).cell? "BOLL_MID" 1 = some (FVal.num 0) ∧
    (add_bollinger (fun _ : ℚ => 0) dfB 2 2).cell? "BOLL_LOWER" 1 = some (FVal.num 0) ∧
    ((0 : ℚ) ≤ 0 ∧ (0 : ℚ) ≤ 0) := by
  have hu : (add_bollinger (fun _ : ℚ => 0) dfB 2 2).cell? "BOLL_UPPER" 1
      = some (FVal.num 0) := by
    norm_num [add_bollinger, stdFn, varFn, dfB, DF.isEmpty, DF.cell?, DF.col?,
      DF.addCol, rollingApply, windowAt, meanFn, FVal.isNan, FVal.obs, FVal.add,
      FVal.sub, FVal.mul, FVal.div, FVal.round4, FVal.pyRound, List.range_succ,
      List.filterMap_cons, List.foldl_cons, List.foldl_nil, List.length_cons]
    try decide
  have hm : (add_bollinger (fun _ : ℚ => 0) dfB 2 2).cell? "BOLL_MID" 1
      = some (FVal.num 0) := by
    norm_num [add_bollinger, stdFn, varFn, dfB, DF.isEmpty, DF.cell?, DF.col?,
      DF.addCol, rollingApply, windowAt, meanFn, FVal.isNan, FVal.obs, FVal.add,
      FVal.sub, FVal.mul, FVal.div, FVal.round4, FVal.pyRound, List.range_succ,
      List.filterMap_cons, List.foldl_cons, List.foldl_nil, List.length_cons]
    try decide
  have hl : (add_bollinger (fun _ : ℚ => 0) dfB 2 2).cell? "BOLL_LOWER" 1
      = some (FVal.num 0) := by
    norm_num [add_bollinger, stdFn, varFn, dfB, DF.isEmpty, DF.cell?, DF.col?,
      DF.addCol, rollingApply, windowAt, meanFn, FVal.isNan, FVal.obs, FVal.add,
      FVal.sub, FVal.mul, FVal.div, FVal.round4, FVal.pyRound, List.range_succ,
      List.filterMap_cons, List.foldl_cons, List.foldl_nil, List.length_cons]
    try decide
  exact ⟨hu, hm, hl,
    bollinger_band_invariant (fun _ => 0) (fun _ => le_refl 0) dfB 2 2 (by norm_num)
      rfl 1 0 0 0 hu hm hl⟩

end DataService
